import Mathlib

/-!
Verification development for the egui_graphs repository.

The source is shallowly embedded over the rationals: `f32` arithmetic is
modelled by exact `ℚ` arithmetic (the repository specification states its
coordinate properties "exactly over the reals; within epsilon in floating
point"), 2D vectors (`egui::Vec2` / `egui::Pos2`) by the `V2` structure,
and fallible operations (the `Option`-returning node lookups that the
source unwraps) by `Option` results where `none` marks a panic.
-/

namespace EguiGraphs

/-- 2D vector over `ℚ`, modelling `egui::Vec2` and `egui::Pos2`
(the source freely converts between the two). -/
structure V2 where
  x : ℚ
  y : ℚ
deriving DecidableEq, Repr

instance : Add V2 := ⟨fun a b => ⟨a.x + b.x, a.y + b.y⟩⟩

instance : Sub V2 := ⟨fun a b => ⟨a.x - b.x, a.y - b.y⟩⟩

/-- The zero vector (`Vec2::ZERO`). -/
def V2.zero : V2 := ⟨0, 0⟩

/-- Scalar multiplication `v * k` (componentwise, as in egui). -/
def V2.smul (v : V2) (k : ℚ) : V2 := ⟨v.x * k, v.y * k⟩

/-- Scalar division `v / k` (componentwise, as in egui). -/
def V2.sdiv (v : V2) (k : ℚ) : V2 := ⟨v.x / k, v.y / k⟩

/-- Squared Euclidean length of a vector.  The source compares Euclidean
lengths; all comparisons in this file are phrased through the square so
that they stay inside `ℚ`. -/
def V2.len2 (v : V2) : ℚ := v.x * v.x + v.y * v.y

/-- Canvas-to-screen transform, from `Node::screen_location`
(src/elements/node.rs): `self.location * m.zoom + m.pan`. -/
def canvasToScreen (zoom : ℚ) (pan : V2) (p : V2) : V2 :=
  (p.smul zoom) + pan

/-- Screen-to-canvas transform, from `GraphView::node_by_screen_pos`
(src/graph_view.rs): `(screen_pos.to_vec2() - meta.pan) / meta.zoom`. -/
def screenToCanvas (zoom : ℚ) (pan : V2) (p : V2) : V2 :=
  (p - pan).sdiv zoom

/-- Viewport state relevant to navigation, from `Metadata`
(zoom and pan persisted across frames). -/
structure Metadata where
  zoom : ℚ
  pan : V2
deriving DecidableEq, Repr

/-- `GraphView::zoom` (src/graph_view.rs lines 368-382).
`rectMin`/`rectCenter` are `rect.min` and `rect.center()` of the canvas
rect; `zoomCenter` is the optional anchor screen point.  The source sets
`pan_delta = graph_center_pos * meta.zoom - graph_center_pos * new_zoom`
and applies `set_pan` then `set_zoom`. -/
def graphViewZoom (rectMin rectCenter : V2) (meta : Metadata) (delta : ℚ)
    (zoomCenter : Option V2) : Metadata :=
  let centerPos : V2 :=
    match zoomCenter with
    | some c => c - rectMin
    | none => rectCenter - rectMin
  let graphCenterPos := (centerPos - meta.pan).sdiv meta.zoom
  let factor := 1 + delta
  let newZoom := meta.zoom * factor
  let panDelta := graphCenterPos.smul meta.zoom - graphCenterPos.smul newZoom
  { zoom := newZoom, pan := meta.pan + panDelta }

/-- `GraphView::fit_to_screen` (src/graph_view.rs lines 290-324).
Computes the padded graph diagonal (substituting `(1, 100)` when the
bounds are degenerate), the fitting zoom `min(canvas.w/w, canvas.h/h)`,
applies it through `GraphView::zoom` with a `None` center, and finally
overwrites the pan so the bounds center maps to the canvas center
(the source uses the local `new_zoom` for that pan). -/
def fitToScreen (rectMin rectMax : V2) (padding : ℚ)
    (boundsMin boundsMax : V2) (meta : Metadata) : Metadata :=
  let diag0 := boundsMax - boundsMin
  let diag := if diag0 = V2.zero then V2.mk 1 100 else diag0
  let graphSize := diag.smul (1 + padding)
  let canvasSize := rectMax - rectMin
  let zoomX := canvasSize.x / graphSize.x
  let zoomY := canvasSize.y / graphSize.y
  let newZoom := min zoomX zoomY
  let zoomDelta := newZoom / meta.zoom - 1
  let rectCenter := (rectMin + rectMax).sdiv 2
  let m1 := graphViewZoom rectMin rectCenter meta zoomDelta none
  let graphCenter := (boundsMin + boundsMax).sdiv 2
  { zoom := m1.zoom, pan := rectCenter - graphCenter.smul newZoom }

/-- Per-node display properties of the simulation-driven widget, from
`elements_props.rs` as used by `src/graph.rs` (`position` is held in
screen coordinates, recomputed every frame; colors are irrelevant to the
claims and omitted). -/
structure NodeProps where
  position : V2
  radius : ℚ
deriving DecidableEq, Repr

/-- Per-edge display properties of the simulation-driven widget, from
`elements_props.rs` as used by `src/graph.rs`.  The Rust field `end` is
a Lean keyword and is rendered `finish`. -/
structure EdgeProps where
  start : ℕ
  finish : ℕ
  width : ℚ
  tipSize : ℚ
  curveSize : ℚ
deriving DecidableEq, Repr

/-- State of the simulation-driven `Graph` widget (src/graph.rs) that
`handle_zoom` reads and writes. -/
structure OldGraph where
  zoom : ℚ
  pan : V2
  canvasMin : V2
  nodesProps : List (ℕ × NodeProps)
  edgesProps : List ((ℕ × ℕ) × List EdgeProps)
deriving DecidableEq, Repr

/-- `Graph::handle_zoom` (src/graph.rs lines 197-220).  Multiplies the
zoom by `factor = 1 + delta`, rescales every stored node radius and
every stored edge width/tip size/curve size by `factor`, and updates the
pan by `(1 - factor) * graph_center_pos * new_zoom`. -/
def handleZoom (st : OldGraph) (delta : ℚ) (zoomCenter : Option V2) : OldGraph :=
  let centerPos : V2 :=
    match zoomCenter with
    | some c => c - st.canvasMin
    | none => V2.zero
  let graphCenterPos := (centerPos - st.pan).sdiv st.zoom
  let factor := 1 + delta
  let newZoom := st.zoom * factor
  { st with
    nodesProps :=
      st.nodesProps.map (fun p => (p.1, { p.2 with radius := p.2.radius * factor })),
    edgesProps :=
      st.edgesProps.map (fun q =>
        (q.1, q.2.map (fun e =>
          { e with
            width := e.width * factor,
            tipSize := e.tipSize * factor,
            curveSize := e.curveSize * factor }))),
    pan := st.pan + graphCenterPos.smul ((1 - factor) * newZoom),
    zoom := newZoom }

/-- An edge of the renderable multigraph together with its order index,
as produced by `transform.rs` (`Edge::bind` fixes the order at creation). -/
structure MEdge where
  src : ℕ
  dst : ℕ
  order : ℕ
deriving DecidableEq, Repr

/-- `petgraph`'s `edges_connecting(a, b)` membership test: for a directed
graph only edges `a -> b`; for an undirected graph edges between `a` and
`b` in either orientation. -/
def connects (directed : Bool) (a b : ℕ) (e : MEdge) : Bool :=
  if directed then e.src == a && e.dst == b
  else (e.src == a && e.dst == b) || (e.src == b && e.dst == a)

/-- `g.edges_connecting(start, end).count()` as used by
`add_edge_custom` and `transform` (src/transform.rs lines 68-88, 231-246). -/
def edgesConnectingCount (directed : Bool) (es : List MEdge) (a b : ℕ) : ℕ :=
  (es.filter (connects directed a b)).length

/-- `add_edge_custom` (src/transform.rs lines 68-88): the new edge's
order index is the number of edges already connecting `start` to `end`,
and the edge is appended to the graph (petgraph appends new edges). -/
def addEdge (directed : Bool) (es : List MEdge) (a b : ℕ) : List MEdge :=
  es ++ [⟨a, b, edgesConnectingCount directed es a b⟩]

/-- A sequence of edge insertions via `add_edge_custom` / `transform`
starting from an edgeless graph. -/
def buildEdges (directed : Bool) (ins : List (ℕ × ℕ)) : List MEdge :=
  ins.foldl (fun es p => addEdge directed es p.1 p.2) []

/-- The order indices inside one endpoint-pair bucket, in insertion
order. -/
def bucketOrders (directed : Bool) (es : List MEdge) (a b : ℕ) : List ℕ :=
  (es.filter (connects directed a b)).map MEdge.order

/-- A node of the interactive `GraphView` widget, from
`src/elements/node.rs`: location (canvas space), base radius, derived
connection count, and the authoritative `selected` / `dragged` flags. -/
structure VNode where
  loc : V2
  radius : ℚ
  numConnections : ℕ
  selected : Bool
  dragged : Bool
deriving DecidableEq, Repr

/-- The renderable graph as an association list from stable node index
to node (the `StableGraph` node storage; edges are irrelevant to the
interaction claims). -/
abbrev VGraph := List (ℕ × VNode)

/-- `StableGraph::node_weight` lookup by stable index, the operation
behind `Graph::node` / `Graph::node_mut` that the handlers in
`src/graph_view.rs` unwrap. -/
def lookupNode : VGraph → ℕ → Option VNode
  | [], _ => none
  | p :: rest, i => if p.1 = i then some p.2 else lookupNode rest i

/-- In-place mutation of the node stored under index `i` (the effect of
writing through `node_mut`). -/
def updateNode : VGraph → ℕ → (VNode → VNode) → VGraph
  | [], _, _ => []
  | p :: rest, i, f =>
    (if p.1 = i then (p.1, f p.2) else p) :: updateNode rest i f

/-- Stable indices of the nodes whose authoritative `selected` flag is
set, in iteration order (the Computed-State selection list). -/
def selectedIdxs : VGraph → List ℕ
  | [] => []
  | p :: rest => if p.2.selected then p.1 :: selectedIdxs rest else selectedIdxs rest

/-- The first node (in iteration order) whose `dragged` flag is set
(the Computed-State dragged reference; the source keeps at most one). -/
def draggedIdx : VGraph → Option ℕ
  | [] => none
  | p :: rest => if p.2.dragged then some p.1 else draggedIdx rest

/-- The stable node indices of the graph are pairwise distinct (an
invariant of petgraph's `StableGraph` storage). -/
def keysNodup (g : VGraph) : Prop := (g.map Prod.fst).Nodup

/-- Per-frame derived state (`ComputedState` in src/computed.rs):
dragged node and selected nodes, rebuilt from the authoritative flags. -/
structure CompState where
  dragged : Option ℕ
  selected : List ℕ
deriving DecidableEq, Repr

/-- `GraphView::compute_state`: rebuild the Computed-State from the
node flags at frame start.  Modelled from the spec for the parts whose
source (`compute_for_node`) is not under src/: the dragged reference and
the selection list are collected from each node's own flags. -/
def computeState (g : VGraph) : CompState :=
  { dragged := draggedIdx g, selected := selectedIdxs g }

/-- Interaction settings gates (src/settings.rs as used by
src/graph_view.rs). -/
structure SettingsInteraction where
  clickingEnabled : Bool
  draggingEnabled : Bool
  selectionEnabled : Bool
  selectionMultiEnabled : Bool
deriving DecidableEq, Repr

/-- Navigation settings gates (src/settings.rs as used by
src/graph_view.rs). -/
structure SettingsNavigation where
  zoomAndPanEnabled : Bool
deriving DecidableEq, Repr

/-- Style settings used by hit-testing (`edge_radius_weight`). -/
structure SettingsStyle where
  edgeRadiusWeight : ℚ
deriving DecidableEq, Repr

/-- Events published by the widget (src/events/event.rs), restricted to
the payload parts the claims mention. -/
inductive GEvent where
  | panEv (diff : V2)
  | nodeMove (id : ℕ) (diff : V2)
  | nodeDragStart (id : ℕ)
  | nodeDragEnd (id : ℕ)
  | nodeSelect (id : ℕ)
  | nodeDeselect (id : ℕ)
  | nodeClick (id : ℕ)
  | nodeDoubleClick (id : ℕ)
deriving DecidableEq, Repr

/-- Whether an event is a selection-state event (`NodeSelect` or
`NodeDeselect`). -/
def isSelectionEvent : GEvent → Bool
  | .nodeSelect _ => true
  | .nodeDeselect _ => true
  | _ => false

/-- `GraphView::select_node` (src/graph_view.rs lines 384-390): unwraps
the lookup (`none` models the panic on a missing identity), sets the
flag, and emits `NodeSelect`. -/
def selectNode (g : VGraph) (i : ℕ) : Option (VGraph × List GEvent) :=
  match lookupNode g i with
  | none => none
  | some _ =>
    some (updateNode g i (fun n => { n with selected := true }), [GEvent.nodeSelect i])

/-- `GraphView::deselect_node` (src/graph_view.rs lines 392-398). -/
def deselectNode (g : VGraph) (i : ℕ) : Option (VGraph × List GEvent) :=
  match lookupNode g i with
  | none => none
  | some _ =>
    some (updateNode g i (fun n => { n with selected := false }), [GEvent.nodeDeselect i])

/-- `GraphView::move_node` (src/graph_view.rs lines 418-427): unwraps
the lookup, adds the delta to the node location, emits `NodeMove`. -/
def moveNode (g : VGraph) (i : ℕ) (delta : V2) : Option (VGraph × List GEvent) :=
  match lookupNode g i with
  | none => none
  | some _ =>
    some (updateNode g i (fun n => { n with loc := n.loc + delta }),
      [GEvent.nodeMove i delta])

/-- `GraphView::set_drag_start` (src/graph_view.rs lines 429-437). -/
def setDragStart (g : VGraph) (i : ℕ) : Option (VGraph × List GEvent) :=
  match lookupNode g i with
  | none => none
  | some _ =>
    some (updateNode g i (fun n => { n with dragged := true }), [GEvent.nodeDragStart i])

/-- `GraphView::set_drag_end` (src/graph_view.rs lines 439-445). -/
def setDragEnd (g : VGraph) (i : ℕ) : Option (VGraph × List GEvent) :=
  match lookupNode g i with
  | none => none
  | some _ =>
    some (updateNode g i (fun n => { n with dragged := false }), [GEvent.nodeDragEnd i])

/-- `GraphView::deselect_all` over an explicit index list
(src/graph_view.rs lines 412-416 iterates `comp.selected`). -/
def deselectAllAux : List ℕ → VGraph → Option (VGraph × List GEvent)
  | [], g => some (g, [])
  | i :: rest, g =>
    match deselectNode g i with
    | none => none
    | some (g1, e1) =>
      match deselectAllAux rest g1 with
      | none => none
      | some (g2, e2) => some (g2, e1 ++ e2)

/-- `GraphView::deselect_all` (src/graph_view.rs lines 412-416). -/
def deselectAll (comp : CompState) (g : VGraph) : Option (VGraph × List GEvent) :=
  deselectAllAux comp.selected g

/-- `GraphView::handle_node_click` (src/graph_view.rs lines 221-247):
bail out unless clicking or selection is enabled; emit `NodeClick` when
clicking is enabled; bail out unless selection is enabled; unwrap the
clicked node; toggle off an already-selected node; otherwise deselect
all (unless multi-select) and select the clicked node. -/
def handleNodeClick (s : SettingsInteraction) (comp : CompState) (g : VGraph)
    (idx : ℕ) : Option (VGraph × List GEvent) :=
  if s.clickingEnabled = false ∧ s.selectionEnabled = false then some (g, [])
  else
    let clickEvs := if s.clickingEnabled then [GEvent.nodeClick idx] else []
    if s.selectionEnabled = false then some (g, clickEvs)
    else
      match lookupNode g idx with
      | none => none
      | some n =>
        if n.selected then
          match deselectNode g idx with
          | none => none
          | some (g1, e1) => some (g1, clickEvs ++ e1)
        else
          match
            (if s.selectionMultiEnabled then some (g, ([] : List GEvent))
             else deselectAll comp g) with
          | none => none
          | some (g1, e1) =>
            match selectNode g1 idx with
            | none => none
            | some (g2, e2) => some (g2, clickEvs ++ e1 ++ e2)

/-- The per-frame pointer facts read from the egui `Response` by
`handle_pan` and `handle_node_drag`. -/
structure FrameInput where
  dragStarted : Bool
  isDragged : Bool
  dragReleased : Bool
  dragDelta : V2
  hoverPos : V2
deriving DecidableEq, Repr

/-- `Node::screen_radius` (src/elements/node.rs):
`(radius + num_connections * edge_radius_weight) * zoom`. -/
def screenRadius (n : VNode) (meta : Metadata) (style : SettingsStyle) : ℚ :=
  (n.radius + (n.numConnections : ℚ) * style.edgeRadiusWeight) * meta.zoom

/-- `GraphView::node_detect` (src/graph_view.rs lines 469-472): the
canvas-space distance from the pointer to the node location is at most
`screen_radius / zoom`, boundary inclusive.  The source compares
Euclidean lengths; this is the exact square-free-of-roots equivalent
(`0 ≤ r ∧ d·d ≤ r*r` iff `sqrt (d·d) ≤ r`). -/
def nodeDetect (meta : Metadata) (n : VNode) (posInGraph : V2)
    (style : SettingsStyle) : Bool :=
  let r := screenRadius n meta style / meta.zoom
  decide (0 ≤ r ∧ V2.len2 (n.loc - posInGraph) ≤ r * r)

/-- `GraphView::node_by_screen_pos` (src/graph_view.rs lines 279-288):
convert the screen position to canvas space and linearly scan for the
first detected node. -/
def nodeByScreenPos (meta : Metadata) (style : SettingsStyle) (g : VGraph)
    (screenPos : V2) : Option (ℕ × VNode) :=
  let posInGraph := (screenPos - meta.pan).sdiv meta.zoom
  g.find? (fun p => nodeDetect meta p.2 posInGraph style)

/-- `GraphView::handle_pan` (src/graph_view.rs lines 353-365): pan by
the raw screen drag delta when zoom-and-pan is enabled, the frame-start
Computed-State has no dragged node, and the delta is nonzero. -/
def handlePan (nav : SettingsNavigation) (input : FrameInput) (comp : CompState)
    (meta : Metadata) : Metadata × List GEvent :=
  if nav.zoomAndPanEnabled = false then (meta, [])
  else if input.isDragged = true ∧ comp.dragged = none ∧
      (input.dragDelta.x ≠ 0 ∨ input.dragDelta.y ≠ 0) then
    ({ meta with pan := meta.pan + input.dragDelta }, [GEvent.panEv input.dragDelta])
  else (meta, [])

/-- `GraphView::handle_node_drag` (src/graph_view.rs lines 249-276):
on drag start, hit-test and mark the hit node dragged; while dragging a
node (per the frame-start Computed-State) with a nonzero delta, move it
by the screen delta divided by zoom; on release, clear the flag.  Each
inner handler unwraps its node lookup (`none` models the panic). -/
def handleNodeDrag (s : SettingsInteraction) (style : SettingsStyle)
    (input : FrameInput) (comp : CompState) (meta : Metadata) (g : VGraph) :
    Option (VGraph × List GEvent) :=
  if s.draggingEnabled = false then some (g, [])
  else
    let step1 : Option (VGraph × List GEvent) :=
      if input.dragStarted = true then
        match nodeByScreenPos meta style g input.hoverPos with
        | some (i, _) => setDragStart g i
        | none => some (g, [])
      else some (g, [])
    match step1 with
    | none => none
    | some (g1, e1) =>
      let step2 : Option (VGraph × List GEvent) :=
        match comp.dragged with
        | some i =>
          if input.isDragged = true ∧
              (input.dragDelta.x ≠ 0 ∨ input.dragDelta.y ≠ 0) then
            moveNode g1 i (input.dragDelta.sdiv meta.zoom)
          else some (g1, [])
        | none => some (g1, [])
      match step2 with
      | none => none
      | some (g2, e2) =>
        let step3 : Option (VGraph × List GEvent) :=
          match comp.dragged with
          | some i =>
            if input.dragReleased = true then setDragEnd g2 i else some (g2, [])
          | none => some (g2, [])
        match step3 with
        | none => none
        | some (g3, e3) => some (g3, e1 ++ e2 ++ e3)

/-- The navigation-and-drag portion of one `GraphView::ui` frame
(src/graph_view.rs lines 52-78) for a frame with no zoom gesture and no
click: rebuild the Computed-State, run `handle_pan`, then run
`handle_node_drag` on the pan-updated metadata. -/
def navDragStep (s : SettingsInteraction) (nav : SettingsNavigation)
    (style : SettingsStyle) (input : FrameInput) (meta : Metadata) (g : VGraph) :
    Option (Metadata × VGraph × List GEvent) :=
  let comp := computeState g
  let pr := handlePan nav input comp meta
  match handleNodeDrag s style input comp pr.1 g with
  | none => none
  | some (g1, evs) => some (pr.1, g1, pr.2 ++ evs)

/-- An edge of the force simulation's working topology (`fdg_sim`
`ForceGraph` edge): endpoints plus the cloned payload (payloads are
opaque to the algorithm; `ℕ` stands in for an arbitrary payload type). -/
structure SEdge where
  src : ℕ
  dst : ℕ
  payload : ℕ
deriving DecidableEq, Repr

/-- The simulation state touched by `Graph::update_simulation`:
node positions (canvas space), edges, and the iteration counter. -/
structure SimState where
  nodes : List (ℕ × V2)
  edges : List SEdge
  iterations : ℕ
deriving DecidableEq, Repr

/-- Whether an edge is a self loop (`edge.0 == edge.1`). -/
def isLoop (e : SEdge) : Bool := e.src == e.dst

/-- Modelled from the spec: the underlying physics solver
(`Simulation::update` of the external `fdg_sim` crate, not under src/)
advances node positions by one fixed time increment and does not touch
the topology; `solverTrivialNoop` additionally captures the spec's
"a graph with 0 or 1 nodes performs no meaningful work". -/
def solverTrivialNoop (solver : List (ℕ × V2) → List SEdge → List (ℕ × V2)) : Prop :=
  ∀ ns es, ns.length ≤ 1 → solver ns es = ns

/-- `Graph::update_simulation` (src/graph.rs lines 427-467): return
`false` once more than `MAX_ITERATIONS = 500` iterations have run;
otherwise remove the self-loop edges, advance the solver one step on the
remaining topology, re-add the removed self loops (same endpoint and
cloned payload, appended), bump the iteration counter and return `true`. -/
def updateSimulation (solver : List (ℕ × V2) → List SEdge → List (ℕ × V2))
    (st : SimState) : SimState × Bool :=
  if st.iterations > 500 then (st, false)
  else
    let looped := st.edges.filter (fun e => isLoop e)
    let rest := st.edges.filter (fun e => !(isLoop e))
    let ns := solver st.nodes rest
    ({ nodes := ns,
       edges := rest ++ looped.map (fun e => ⟨e.src, e.src, e.payload⟩),
       iterations := st.iterations + 1 }, true)

/-- A shape emitted by `Graph::draw_edges` (src/graph.rs): a closed
cubic bezier (self loops), a quadratic bezier (parallel edges), or a
line segment (edge bodies and arrowhead strokes). -/
inductive EShape where
  | cubic (p0 p1 p2 p3 : V2)
  | quad (p0 p1 p2 : V2)
  | seg (a b : V2)
deriving DecidableEq, Repr

/-- `rotate_vector` (src/graph.rs lines 507-511), with the cosine and
sine of the angle passed in (they are transcendental for the source's
fixed angle `TAU/50`, so they are parameters of the rational model;
rotation by the negated angle is `rotateVector c (-s)`). -/
def rotateVector (c s : ℚ) (v : V2) : V2 :=
  ⟨c * v.x - s * v.y, s * v.x + c * v.y⟩

/-- The shapes `Graph::draw_edges` (src/graph.rs lines 315-415) emits
for one edge.  `edgesCount` is the size of the edge's endpoint-pair
bucket and `curveScale` the running per-pair counter; `l` is the
Euclidean length of `pos_end - pos_start` and `tl` the Euclidean length
of the arrowhead tangent `control_point - tip_point` (both passed in
because square roots leave `ℚ`; the source computes them with
`Vec2::length` and uses them only as divisors).  There is no guard on
`l`: the direction is `vec / l` unconditionally. -/
def drawEdgeShapes (c s : ℚ) (startN endN : NodeProps) (e : EdgeProps)
    (edgesCount : ℕ) (curveScale : ℚ) (l tl : ℚ) : List EShape :=
  let posStart := startN.position
  let posEnd := endN.position
  if e.start = e.finish then
    [EShape.cubic posStart
      ⟨posStart.x + startN.radius * 4, posStart.y - startN.radius * 4⟩
      ⟨posStart.x - startN.radius * 4, posStart.y - startN.radius * 4⟩
      posEnd]
  else
    let vec := posEnd - posStart
    let dir := vec.sdiv l
    let endNodeRadiusVec := dir.smul endN.radius
    let startNodeRadiusVec := dir.smul startN.radius
    let tipPoint := posStart + vec - endNodeRadiusVec
    let startPoint := posStart + startNodeRadiusVec
    if edgesCount > 1 then
      let dirPerpendicular : V2 := ⟨-dir.y, dir.x⟩
      let centerPoint := (startPoint + tipPoint).sdiv 2
      let controlPoint := centerPoint + dirPerpendicular.smul (e.curveSize * curveScale)
      let tipVec := controlPoint - tipPoint
      let tipDir := tipVec.sdiv tl
      let arrowTipDir1 := (rotateVector c s tipDir).smul e.tipSize
      let arrowTipDir2 := (rotateVector c (-s) tipDir).smul e.tipSize
      [EShape.quad startPoint controlPoint tipPoint,
       EShape.seg tipPoint (tipPoint + arrowTipDir1),
       EShape.seg tipPoint (tipPoint + arrowTipDir2)]
    else
      [EShape.seg startPoint tipPoint,
       EShape.seg tipPoint (tipPoint - (rotateVector c s dir).smul e.tipSize),
       EShape.seg tipPoint (tipPoint - (rotateVector c (-s) dir).smul e.tipSize)]

/-- A sample unselected, undragged node used by concrete instances. -/
def sampleNode (px py : ℚ) : VNode :=
  { loc := ⟨px, py⟩, radius := 5, numConnections := 0,
    selected := false, dragged := false }

/-- A one-node graph fixture. -/
def gOne : VGraph := [(0, sampleNode 0 0)]

/-- A sample node whose `selected` flag is set. -/
def sampleSelNode : VNode :=
  { loc := ⟨0, 0⟩, radius := 5, numConnections := 0,
    selected := true, dragged := false }

/-- A trivially stationary solver instance (used to instantiate the
simulation theorem at a concrete input). -/
def idSolver : List (ℕ × V2) → List SEdge → List (ℕ × V2) := fun ns _ => ns

/-- The fitting zoom computed by `fit_to_screen`:
`min(canvas.w / width, canvas.h / height)` over the padded diagonal
(with the degenerate-bounds substitution). -/
def fitZoom (rectMin rectMax : V2) (padding : ℚ) (boundsMin boundsMax : V2) : ℚ :=
  let diag0 := boundsMax - boundsMin
  let diag := if diag0 = V2.zero then V2.mk 1 100 else diag0
  let graphSize := diag.smul (1 + padding)
  let canvasSize := rectMax - rectMin
  min (canvasSize.x / graphSize.x) (canvasSize.y / graphSize.y)

/-- The pan computed by `fit_to_screen`: canvas center minus bounds
center scaled by the fitting zoom. -/
def fitPan (rectMin rectMax : V2) (padding : ℚ) (boundsMin boundsMax : V2) : V2 :=
  (rectMin + rectMax).sdiv 2
    - ((boundsMin + boundsMax).sdiv 2).smul (fitZoom rectMin rectMax padding boundsMin boundsMax)

/- ------------------------------------------------------------------ -/
/- Theorems.                                                           -/
/- ------------------------------------------------------------------ -/

theorem V2.add_def (a b : V2) : a + b = ⟨a.x + b.x, a.y + b.y⟩ := rfl

theorem V2.sub_def (a b : V2) : a - b = ⟨a.x - b.x, a.y - b.y⟩ := rfl

/-- C2.  Coordinate round-trip: for every pan, every zoom greater than
zero and every canvas point `c`, applying the screen-to-canvas transform
`(p - pan) / zoom` of `node_by_screen_pos` to the result of the
canvas-to-screen transform `p * zoom + pan` of `Node::screen_location`
yields `c` again, exactly over the rationals. -/
theorem c2_round_trip (zoom : ℚ) (pan c : V2) (h : 0 < zoom) :
    screenToCanvas zoom pan (canvasToScreen zoom pan c) = c := by
  have hz : zoom ≠ 0 := ne_of_gt h
  cases c with
  | mk cx cy =>
    simp only [screenToCanvas, canvasToScreen, V2.sdiv, V2.smul, V2.add_def,
      V2.sub_def, V2.mk.injEq]
    constructor <;> field_simp

/-- Witness for C2 at zoom 2, pan (3, 4), canvas point (5, 6). -/
theorem c2_round_trip_witness :
    (0 : ℚ) < 2 ∧
      screenToCanvas 2 ⟨3, 4⟩ (canvasToScreen 2 ⟨3, 4⟩ ⟨5, 6⟩) = ⟨5, 6⟩ :=
  ⟨by norm_num, c2_round_trip 2 ⟨3, 4⟩ ⟨5, 6⟩ (by norm_num)⟩

/-- C1 (amended).  `GraphView::zoom` multiplies the zoom by
`(1 + delta)` and compensates the pan so that the canvas point that was
under the anchor stays visually fixed, where the anchor is taken
relative to the canvas rect's min corner (the source maps
`anchor ↦ anchor - rect.min` before applying the transforms): for every
viewport with zoom greater than zero and every delta, the canvas point
`screen_to_canvas(anchor - rect.min)` computed under the old zoom/pan
maps under the new zoom/pan to the same screen point `anchor - rect.min`.
The simulation-driven `Graph::handle_zoom` does not satisfy this
(see the counterexample theorem). -/
theorem c1_zoom_anchor (meta : Metadata) (delta : ℚ)
    (anchor rectMin rectCenter : V2) (h : 0 < meta.zoom) :
    (graphViewZoom rectMin rectCenter meta delta (some anchor)).zoom
        = meta.zoom * (1 + delta) ∧
      canvasToScreen (graphViewZoom rectMin rectCenter meta delta (some anchor)).zoom
        (graphViewZoom rectMin rectCenter meta delta (some anchor)).pan
        (screenToCanvas meta.zoom meta.pan (anchor - rectMin))
      = anchor - rectMin := by
  have hz : meta.zoom ≠ 0 := ne_of_gt h
  constructor
  · rfl
  · simp only [graphViewZoom, canvasToScreen, screenToCanvas, V2.sdiv, V2.smul,
      V2.add_def, V2.sub_def, V2.mk.injEq]
    constructor <;> field_simp <;> ring

/-- Witness for C1 at zoom 1, pan (0, 0), rect min (0, 0), delta 1,
anchor (1, 0). -/
theorem c1_zoom_anchor_witness :
    (0 : ℚ) < (1 : ℚ) ∧
      ((graphViewZoom V2.zero ⟨2, 2⟩ ⟨1, V2.zero⟩ 1 (some ⟨1, 0⟩)).zoom
          = 1 * (1 + 1) ∧
        canvasToScreen (graphViewZoom V2.zero ⟨2, 2⟩ ⟨1, V2.zero⟩ 1 (some ⟨1, 0⟩)).zoom
          (graphViewZoom V2.zero ⟨2, 2⟩ ⟨1, V2.zero⟩ 1 (some ⟨1, 0⟩)).pan
          (screenToCanvas (1 : ℚ) V2.zero (⟨1, 0⟩ - V2.zero))
        = ⟨1, 0⟩ - V2.zero) :=
  ⟨by norm_num, c1_zoom_anchor ⟨1, V2.zero⟩ 1 ⟨1, 0⟩ V2.zero ⟨2, 2⟩ (by norm_num)⟩

/-- C1 counterexample.  The claim quantifies over the zoom operation of
both widgets; `Graph::handle_zoom` (src/graph.rs lines 197-220)
violates it: at zoom 1, pan (0, 0), anchor (1, 0) and delta 1 it sets
zoom to 2 as claimed, but its pan update
`pan += (1 - factor) * graph_center_pos * new_zoom` sends the canvas
point that was under the anchor to screen point (0, 0), not back to the
anchor (1, 0). -/
theorem c1_zoom_anchor_cex :
    (handleZoom ⟨1, V2.zero, V2.zero, [], []⟩ 1 (some ⟨1, 0⟩)).zoom = 1 * (1 + 1) ∧
      canvasToScreen (handleZoom ⟨1, V2.zero, V2.zero, [], []⟩ 1 (some ⟨1, 0⟩)).zoom
        (handleZoom ⟨1, V2.zero, V2.zero, [], []⟩ 1 (some ⟨1, 0⟩)).pan
        (screenToCanvas 1 V2.zero (⟨1, 0⟩ - V2.zero))
        = ⟨0, 0⟩ ∧
      (⟨0, 0⟩ : V2) ≠ ⟨1, 0⟩ - V2.zero := by
  refine ⟨?_, ?_, ?_⟩ <;>
    simp only [handleZoom, canvasToScreen, screenToCanvas, V2.zero, V2.sdiv,
      V2.smul, V2.add_def, V2.sub_def, V2.mk.injEq, ne_eq] <;> norm_num

/-- C10.  In the simulation-driven widget, `Graph::handle_zoom` with
delta `d`, besides updating zoom and pan, multiplies every node's
stored radius and every edge's stored width, tip size and curve size by
`(1 + d)`: element style state is coupled to the zoom history. -/
theorem c10_zoom_scales_styles (st : OldGraph) (delta : ℚ) (zc : Option V2) :
    (handleZoom st delta zc).zoom = st.zoom * (1 + delta) ∧
      (handleZoom st delta zc).nodesProps.map (fun p => p.2.radius)
        = st.nodesProps.map (fun p => p.2.radius * (1 + delta)) ∧
      (handleZoom st delta zc).edgesProps.map (fun q => q.2.map EdgeProps.width)
        = st.edgesProps.map (fun q => q.2.map (fun e => e.width * (1 + delta))) ∧
      (handleZoom st delta zc).edgesProps.map (fun q => q.2.map EdgeProps.tipSize)
        = st.edgesProps.map (fun q => q.2.map (fun e => e.tipSize * (1 + delta))) ∧
      (handleZoom st delta zc).edgesProps.map (fun q => q.2.map EdgeProps.curveSize)
        = st.edgesProps.map (fun q => q.2.map (fun e => e.curveSize * (1 + delta))) := by
  refine ⟨rfl, ?_, ?_, ?_, ?_⟩ <;>
    simp [handleZoom, List.map_map, Function.comp_def]

/-- Helper: for a nonzero current zoom, one `fit_to_screen` call lands
exactly on the fitting zoom and pan, independently of the incoming
metadata. -/
theorem fitToScreen_eq (rectMin rectMax : V2) (padding : ℚ)
    (boundsMin boundsMax : V2) (meta : Metadata) (hz : meta.zoom ≠ 0) :
    fitToScreen rectMin rectMax padding boundsMin boundsMax meta
      = { zoom := fitZoom rectMin rectMax padding boundsMin boundsMax,
          pan := fitPan rectMin rectMax padding boundsMin boundsMax } := by
  simp only [fitToScreen, fitZoom, fitPan, graphViewZoom, Metadata.mk.injEq]
  refine ⟨?_, trivial⟩
  field_simp

/-- Helper: positivity of the fitting zoom under nondegenerate inputs. -/
theorem fitZoom_pos (rectMin rectMax : V2) (padding : ℚ) (boundsMin boundsMax : V2)
    (hcx : 0 < (rectMax - rectMin).x) (hcy : 0 < (rectMax - rectMin).y)
    (hp : 0 ≤ padding)
    (hd : boundsMax - boundsMin = V2.zero ∨
      (0 < (boundsMax - boundsMin).x ∧ 0 < (boundsMax - boundsMin).y)) :
    0 < fitZoom rectMin rectMax padding boundsMin boundsMax := by
  have hpad : (0 : ℚ) < 1 + padding := by linarith
  simp only [fitZoom]
  rcases hd with hd | ⟨hdx, hdy⟩
  · rw [if_pos hd]
    refine lt_min (div_pos hcx ?_) (div_pos hcy ?_) <;>
      simp [V2.smul] <;> linarith
  · have hne : boundsMax - boundsMin ≠ V2.zero := by
      intro h
      rw [h] at hdx
      simp [V2.zero] at hdx
    rw [if_neg hne]
    exact lt_min (div_pos hcx (by simp [V2.smul]; positivity))
      (div_pos hcy (by simp [V2.smul]; positivity))

/-- C3.  Fit-to-screen idempotence: for every bounding box and canvas
rectangle (nondegenerate: positive canvas extent, nonzero incoming
zoom, nonnegative padding, and bounds that are either a single point —
handled by the source's default-diagonal substitution — or of positive
extent in both axes), calling `GraphView::fit_to_screen` twice with the
same inputs leaves zoom and pan identical to the values after the first
call. -/
theorem c3_fit_idempotent (rectMin rectMax : V2) (padding : ℚ)
    (boundsMin boundsMax : V2) (meta : Metadata)
    (hz : meta.zoom ≠ 0)
    (hcx : 0 < (rectMax - rectMin).x) (hcy : 0 < (rectMax - rectMin).y)
    (hp : 0 ≤ padding)
    (hd : boundsMax - boundsMin = V2.zero ∨
      (0 < (boundsMax - boundsMin).x ∧ 0 < (boundsMax - boundsMin).y)) :
    fitToScreen rectMin rectMax padding boundsMin boundsMax
        (fitToScreen rectMin rectMax padding boundsMin boundsMax meta)
      = fitToScreen rectMin rectMax padding boundsMin boundsMax meta := by
  have h1 := fitToScreen_eq rectMin rectMax padding boundsMin boundsMax meta hz
  have hpos := fitZoom_pos rectMin rectMax padding boundsMin boundsMax hcx hcy hp hd
  rw [h1]
  exact fitToScreen_eq rectMin rectMax padding boundsMin boundsMax _ (ne_of_gt hpos)

/-- Witness for C3: canvas (0,0)-(400,400), padding 3/10, bounds
(10,10)-(110,60), incoming zoom 1, pan (0,0). -/
theorem c3_fit_idempotent_witness :
    ((1 : ℚ) ≠ 0 ∧ (0 : ℚ) < ((⟨400, 400⟩ : V2) - ⟨0, 0⟩).x) ∧
      fitToScreen ⟨0, 0⟩ ⟨400, 400⟩ (3 / 10) ⟨10, 10⟩ ⟨110, 60⟩
          (fitToScreen ⟨0, 0⟩ ⟨400, 400⟩ (3 / 10) ⟨10, 10⟩ ⟨110, 60⟩ ⟨1, ⟨0, 0⟩⟩)
        = fitToScreen ⟨0, 0⟩ ⟨400, 400⟩ (3 / 10) ⟨10, 10⟩ ⟨110, 60⟩ ⟨1, ⟨0, 0⟩⟩ :=
  ⟨⟨by norm_num, by norm_num [V2.sub_def]⟩,
    c3_fit_idempotent ⟨0, 0⟩ ⟨400, 400⟩ (3 / 10) ⟨10, 10⟩ ⟨110, 60⟩ ⟨1, ⟨0, 0⟩⟩
      (by norm_num) (by norm_num [V2.sub_def]) (by norm_num [V2.sub_def])
      (by norm_num)
      (Or.inr ⟨by norm_num [V2.sub_def], by norm_num [V2.sub_def]⟩)⟩

/-- Helper: the undirected connecting predicate is symmetric in the
endpoint pair. -/
theorem connects_undirected_symm (a b : ℕ) (e : MEdge) :
    connects false a b e = connects false b a e := by
  simp [connects, Bool.or_comm]

/-- Helper: if an edge `(x, y)` belongs to the bucket of `(a, b)`, then
the connecting predicates of `(x, y)` and `(a, b)` agree on every edge. -/
theorem connects_of_connects (d : Bool) (a b x y o : ℕ)
    (h : connects d a b ⟨x, y, o⟩ = true) (e : MEdge) :
    connects d x y e = connects d a b e := by
  cases d
  · have h2 : (x = a ∧ y = b) ∨ (x = b ∧ y = a) := by simpa [connects] using h
    rcases h2 with ⟨h1, h2⟩ | ⟨h1, h2⟩
    · rw [h1, h2]
    · rw [h1, h2]
      exact connects_undirected_symm b a e
  · have h2 : x = a ∧ y = b := by simpa [connects] using h
    rw [h2.1, h2.2]

/-- Helper: one `add_edge_custom` insertion preserves the bucket-order
invariant "each endpoint-pair bucket's order list is `0..k-1` in
insertion order". -/
theorem bucket_inv_step (d : Bool) (es : List MEdge) (x y : ℕ)
    (ih : ∀ a b, bucketOrders d es a b
      = List.range (edgesConnectingCount d es a b)) :
    ∀ a b, bucketOrders d (addEdge d es x y) a b
      = List.range (edgesConnectingCount d (addEdge d es x y) a b) := by
  intro a b
  have hih := ih a b
  simp only [bucketOrders, edgesConnectingCount] at hih
  by_cases h : connects d a b ⟨x, y, edgesConnectingCount d es x y⟩ = true
  · have hpred : ∀ e, connects d x y e = connects d a b e :=
      connects_of_connects d a b x y _ h
    have hcnt : (List.filter (connects d x y) es).length
        = (List.filter (connects d a b) es).length := by
      rw [List.filter_congr (fun e _ => hpred e)]
    simp only [edgesConnectingCount] at h
    rw [hcnt] at h
    simp only [addEdge, bucketOrders, edgesConnectingCount, List.filter_append,
      List.map_append, List.length_append]
    simp [h, hih, hcnt, List.range_succ]
  · have hb : connects d a b ⟨x, y, edgesConnectingCount d es x y⟩ = false :=
      Bool.eq_false_iff.mpr h
    simp only [edgesConnectingCount] at hb
    simp only [addEdge, bucketOrders, edgesConnectingCount, List.filter_append,
      List.map_append, List.length_append]
    simp [hb, hih]

/-- Helper: the bucket-order invariant holds for every graph built by a
sequence of `add_edge_custom` insertions. -/
theorem buildEdges_bucket_inv (d : Bool) (ins : List (ℕ × ℕ)) :
    ∀ a b, bucketOrders d (buildEdges d ins) a b
      = List.range (edgesConnectingCount d (buildEdges d ins) a b) := by
  suffices h : ∀ (l : List (ℕ × ℕ)) (es : List MEdge),
      (∀ a b, bucketOrders d es a b = List.range (edgesConnectingCount d es a b)) →
      ∀ a b, bucketOrders d (l.foldl (fun es p => addEdge d es p.1 p.2) es) a b
        = List.range
            (edgesConnectingCount d (l.foldl (fun es p => addEdge d es p.1 p.2) es) a b) by
    exact h ins [] (by intro a b; simp [bucketOrders, edgesConnectingCount])
  intro l
  induction l with
  | nil => intro es hes; simpa using hes
  | cons p rest ih2 =>
    intro es hes
    simp only [List.foldl_cons]
    exact ih2 _ (bucket_inv_step d es p.1 p.2 hes)

/-- Helper: later insertions only append; the already-built prefix of
the edge list (and hence every already-assigned order index) is
unchanged. -/
theorem foldl_addEdge_extends (d : Bool) (more : List (ℕ × ℕ)) :
    ∀ es : List MEdge,
      ∃ rest, more.foldl (fun es p => addEdge d es p.1 p.2) es = es ++ rest := by
  induction more with
  | nil => exact fun es => ⟨[], by simp⟩
  | cons p ms ih =>
    intro es
    obtain ⟨rest, hr⟩ := ih (addEdge d es p.1 p.2)
    refine ⟨⟨p.1, p.2, edgesConnectingCount d es p.1 p.2⟩ :: rest, ?_⟩
    simp only [List.foldl_cons]
    rw [hr]
    simp [addEdge]

/-- C4 (amended).  Order-index assignment: each new edge's order index
equals the number of already-present edges connecting the same
endpoints in the same sense as petgraph's `edges_connecting` — the same
direction for a directed graph, either orientation for an undirected
graph.  Consequently, within each such bucket the order indices are
exactly `0..k-1` in insertion order (unique and dense), they are fixed
at creation (later insertions only append, never rewriting existing
edges), and adding A→B, A→B, A→B in sequence yields indices 0, 1, 2.
For directed graphs the bucket is the *directed* endpoint pair, not the
unordered one claimed (see the counterexample theorem). -/
theorem c4_order_index (d : Bool) (ins more : List (ℕ × ℕ)) (a b : ℕ) :
    bucketOrders d (buildEdges d ins) a b
        = List.range (edgesConnectingCount d (buildEdges d ins) a b)
      ∧ (∃ rest, buildEdges d (ins ++ more) = buildEdges d ins ++ rest)
      ∧ (buildEdges true [(0, 1), (0, 1), (0, 1)]).map MEdge.order = [0, 1, 2] := by
  refine ⟨buildEdges_bucket_inv d ins a b, ?_, by decide⟩
  simp only [buildEdges, List.foldl_append]
  exact foldl_addEdge_extends d more _

/-- C4 counterexample.  In a directed graph, inserting A→B then B→A
gives both edges order index 0 (`edges_connecting` is directional), so
within the *unordered* endpoint-pair bucket {A, B} the order indices
are [0, 0]: neither unique nor dense `0..1`, contradicting the claim's
unordered-bucket invariant. -/
theorem c4_order_index_cex :
    bucketOrders false (buildEdges true [(0, 1), (1, 0)]) 0 1 = [0, 0] ∧
      edgesConnectingCount false (buildEdges true [(0, 1), (1, 0)]) 0 1 = 2 ∧
      ([0, 0] : List ℕ) ≠ List.range 2 := by decide

/-- Helper: how `node_weight` lookup interacts with an in-place node
update. -/
theorem lookupNode_update (g : VGraph) (i j : ℕ) (f : VNode → VNode) :
    lookupNode (updateNode g i f) j
      = if i = j then (lookupNode g j).map f else lookupNode g j := by
  induction g with
  | nil => simp [lookupNode, updateNode]
  | cons p rest ih =>
    by_cases h1 : p.1 = i
    · simp only [updateNode, if_pos h1, lookupNode]
      by_cases h2 : p.1 = j
      · rw [if_pos h2, if_pos h2, if_pos (h1 ▸ h2)]
        rfl
      · rw [if_neg h2, if_neg h2, ih]
    · simp only [updateNode, if_neg h1, lookupNode]
      by_cases h2 : p.1 = j
      · have hij : i ≠ j := fun he => h1 (by rw [h2, he])
        rw [if_pos h2, if_pos h2, if_neg hij]
      · rw [if_neg h2, if_neg h2, ih]

/-- Helper: updating an absent index is the identity. -/
theorem updateNode_not_mem (g : VGraph) (i : ℕ) (f : VNode → VNode)
    (h : i ∉ g.map Prod.fst) : updateNode g i f = g := by
  induction g with
  | nil => rfl
  | cons p rest ih =>
    simp only [List.map_cons, List.mem_cons, not_or] at h
    have hne : p.1 ≠ i := fun he => h.1 he.symm
    simp only [updateNode, if_neg hne, ih h.2]

/-- Helper: node updates preserve the stored index sequence. -/
theorem updateNode_keys (g : VGraph) (i : ℕ) (f : VNode → VNode) :
    (updateNode g i f).map Prod.fst = g.map Prod.fst := by
  induction g with
  | nil => rfl
  | cons p rest ih =>
    by_cases h : p.1 = i <;> simp [updateNode, h, ih]

/-- Helper: a selected index is present in the graph. -/
theorem lookup_isSome_of_mem_selectedIdxs (g : VGraph) (i : ℕ)
    (h : i ∈ selectedIdxs g) : (lookupNode g i).isSome = true := by
  induction g with
  | nil => simp [selectedIdxs] at h
  | cons p rest ih =>
    by_cases hp : p.1 = i
    · simp [lookupNode, hp]
    · have hrest : i ∈ selectedIdxs rest := by
        by_cases hs : p.2.selected
        · have : i ∈ p.1 :: selectedIdxs rest := by
            simpa [selectedIdxs, hs] using h
          rcases List.mem_cons.mp this with he | hm
          · exact absurd he.symm hp
          · exact hm
        · simpa [selectedIdxs, hs] using h
      simp [lookupNode, hp, ih hrest]

/-- Helper: clearing the `selected` flag of some index cannot create a
selection. -/
theorem selectedIdxs_update_false_of_nil (g : VGraph) (i : ℕ)
    (h : selectedIdxs g = []) :
    selectedIdxs (updateNode g i (fun n => { n with selected := false })) = [] := by
  induction g with
  | nil => rfl
  | cons p rest ih =>
    have hps : p.2.selected = false := by
      by_cases hs : p.2.selected
      · simp [selectedIdxs, hs] at h
      · exact Bool.eq_false_iff.mpr hs
    have hrest : selectedIdxs rest = [] := by simpa [selectedIdxs, hps] using h
    by_cases hp : p.1 = i <;>
      simp [updateNode, hp, selectedIdxs, hps, ih hrest]

/-- Helper: clearing the flag of the only selected index empties the
selection. -/
theorem selectedIdxs_update_false_of_singleton (g : VGraph) (A : ℕ)
    (h : selectedIdxs g = [A]) :
    selectedIdxs (updateNode g A (fun n => { n with selected := false })) = [] := by
  induction g with
  | nil => rfl
  | cons p rest ih =>
    by_cases hs : p.2.selected
    · have hcons : p.1 :: selectedIdxs rest = [A] := by
        simpa [selectedIdxs, hs] using h
      have hpA : p.1 = A := (List.cons_eq_cons.mp hcons).1
      have hrest : selectedIdxs rest = [] := (List.cons_eq_cons.mp hcons).2
      simp [updateNode, hpA, selectedIdxs,
        selectedIdxs_update_false_of_nil rest A hrest]
    · have hps : p.2.selected = false := Bool.eq_false_iff.mpr hs
      have hrest : selectedIdxs rest = [A] := by simpa [selectedIdxs, hps] using h
      by_cases hp : p.1 = A <;>
        simp [updateNode, hp, selectedIdxs, hps, ih hrest]

/-- Helper: setting the `selected` flag of a present index in a graph
with no selection and distinct indices yields exactly that singleton
selection. -/
theorem selectedIdxs_update_true (g : VGraph) (i : ℕ) (hn : keysNodup g)
    (hnil : selectedIdxs g = []) (hsome : (lookupNode g i).isSome = true) :
    selectedIdxs (updateNode g i (fun n => { n with selected := true })) = [i] := by
  induction g with
  | nil => simp [lookupNode] at hsome
  | cons p rest ih =>
    have hps : p.2.selected = false := by
      by_cases hs : p.2.selected
      · simp [selectedIdxs, hs] at hnil
      · exact Bool.eq_false_iff.mpr hs
    have hrest : selectedIdxs rest = [] := by simpa [selectedIdxs, hps] using hnil
    rw [keysNodup, List.map_cons, List.nodup_cons] at hn
    by_cases hp : p.1 = i
    · have hnotin : i ∉ rest.map Prod.fst := hp ▸ hn.1
      simp [updateNode, hp, selectedIdxs,
        updateNode_not_mem rest i _ hnotin, hrest]
    · have hsome2 : (lookupNode rest i).isSome = true := by
        simpa [lookupNode, hp] using hsome
      simp [updateNode, hp, selectedIdxs, hps, ih hn.2 hrest hsome2]

/-- C5.  Selection exclusivity: with multi-select disabled and selection
enabled, a click on an unselected node B while exactly node A is
selected (the frame-start Computed-State being rebuilt from the flags)
emits exactly one `NodeDeselect(A)` followed by exactly one
`NodeSelect(B)` — the selection-event subsequence of the emitted events
is precisely `[NodeDeselect A, NodeSelect B]` — and afterwards B is the
only selected node. -/
theorem c5_selection_exclusivity (s : SettingsInteraction) (g : VGraph)
    (A B : ℕ) (nB : VNode)
    (hsel : s.selectionEnabled = true)
    (hmulti : s.selectionMultiEnabled = false)
    (hnodup : keysNodup g)
    (hAB : A ≠ B)
    (hB : lookupNode g B = some nB)
    (hBsel : nB.selected = false)
    (hA : selectedIdxs g = [A]) :
    ∃ g2 evs, handleNodeClick s (computeState g) g B = some (g2, evs)
      ∧ evs.filter isSelectionEvent = [GEvent.nodeDeselect A, GEvent.nodeSelect B]
      ∧ selectedIdxs g2 = [B] := by
  have hAmem : A ∈ selectedIdxs g := by rw [hA]; exact List.mem_singleton.mpr rfl
  have hAsome := lookup_isSome_of_mem_selectedIdxs g A hAmem
  obtain ⟨nA, hnA⟩ := Option.isSome_iff_exists.mp hAsome
  have hdesel : deselectNode g A
      = some (updateNode g A (fun n => { n with selected := false }),
          [GEvent.nodeDeselect A]) := by
    simp [deselectNode, hnA]
  have hall : deselectAll (computeState g) g
      = some (updateNode g A (fun n => { n with selected := false }),
          [GEvent.nodeDeselect A]) := by
    simp [deselectAll, computeState, hA, deselectAllAux, hdesel]
  have hlookupB2 :
      lookupNode (updateNode g A (fun n => { n with selected := false })) B
        = some nB := by
    rw [lookupNode_update, if_neg hAB, hB]
  have hselB :
      selectNode (updateNode g A (fun n => { n with selected := false })) B
        = some (updateNode (updateNode g A (fun n => { n with selected := false })) B
            (fun n => { n with selected := true }), [GEvent.nodeSelect B]) := by
    simp [selectNode, hlookupB2]
  refine ⟨updateNode (updateNode g A (fun n => { n with selected := false })) B
      (fun n => { n with selected := true }),
    (if s.clickingEnabled then [GEvent.nodeClick B] else [])
      ++ [GEvent.nodeDeselect A] ++ [GEvent.nodeSelect B], ?_, ?_, ?_⟩
  · simp [handleNodeClick, hsel, hmulti, hB, hBsel, hall, hselB]
  · by_cases hc : s.clickingEnabled <;>
      simp [hc, isSelectionEvent]
  · have hempty : selectedIdxs
        (updateNode g A (fun n => { n with selected := false })) = [] :=
      selectedIdxs_update_false_of_singleton g A hA
    have hnodup2 : keysNodup
        (updateNode g A (fun n => { n with selected := false })) := by
      rw [keysNodup, updateNode_keys]
      exact hnodup
    have hsome2 : (lookupNode
        (updateNode g A (fun n => { n with selected := false })) B).isSome = true := by
      rw [hlookupB2]
      rfl
    exact selectedIdxs_update_true _ B hnodup2 hempty hsome2

/-- Witness for C5: a two-node graph, node 0 selected, click node 1
with clicking and selection enabled and multi-select disabled. -/
theorem c5_selection_exclusivity_witness :
    selectedIdxs [(0, sampleSelNode), (1, sampleNode 1 2)] = [0] ∧
      ∃ g2 evs, handleNodeClick ⟨true, false, true, false⟩
          (computeState [(0, sampleSelNode), (1, sampleNode 1 2)])
          [(0, sampleSelNode), (1, sampleNode 1 2)] 1 = some (g2, evs)
        ∧ evs.filter isSelectionEvent = [GEvent.nodeDeselect 0, GEvent.nodeSelect 1]
        ∧ selectedIdxs g2 = [1] :=
  ⟨rfl,
    c5_selection_exclusivity ⟨true, false, true, false⟩
      [(0, sampleSelNode), (1, sampleNode 1 2)] 0 1 (sampleNode 1 2)
      rfl rfl (by rw [keysNodup]; decide) (by decide) rfl rfl rfl⟩

/-- C7 (evaluation at the failing input).  The interaction handlers of
`GraphView` unwrap their node lookup: invoked with a node identity that
is not present (index 5 in a graph holding only index 0) every one of
select, deselect, move, drag start and drag end reaches the `unwrap` of
a `None` lookup — modelled by the `none` result — i.e. the source
panics instead of the claimed silent no-op. -/
theorem c7_missing_identity_fault :
    lookupNode gOne 5 = none ∧ selectNode gOne 5 = none
      ∧ deselectNode gOne 5 = none ∧ moveNode gOne 5 ⟨1, 1⟩ = none
      ∧ setDragStart gOne 5 = none ∧ setDragEnd gOne 5 = none := by
  refine ⟨?_, ?_, ?_, ?_, ?_, ?_⟩ <;> rfl

/-- Helper: re-adding a removed self loop as `(src, src, payload)`
reproduces the original edge. -/
theorem map_readd_self_loops (l : List SEdge) (h : ∀ e ∈ l, e.src = e.dst) :
    l.map (fun e => (⟨e.src, e.src, e.payload⟩ : SEdge)) = l := by
  induction l with
  | nil => rfl
  | cons e t ih =>
    have he := h e (List.mem_cons_self e t)
    cases e with
    | mk s d pl =>
      simp only [List.map_cons, List.cons.injEq]
      refine ⟨?_, ih (fun x hx => h x (List.mem_cons_of_mem _ hx))⟩
      simp only at he
      simp [he]

/-- Helper: every member of the self-loop filtrate is a self loop. -/
theorem mem_filter_isLoop (l : List SEdge) :
    ∀ e ∈ l.filter (fun e => isLoop e), e.src = e.dst := by
  intro e he
  have := List.of_mem_filter he
  simpa [isLoop] using this

/-- C8.  Self-loop survival through one simulation step: for every
graph state within the iteration cap and every solver that moves only
node positions (and, per the spec, does nothing on graphs with at most
one node), `update_simulation` removes all self-loop edges, advances
the solver, then re-adds exactly the removed self loops with the same
endpoint node and payload — the resulting edge list is the non-loop
edges followed by the original self loops, and the self-loop sublist is
preserved verbatim.  On a graph with 0 or 1 nodes the node positions
are unchanged; the step returns `true` and bumps the iteration counter
(total, so no fault). -/
theorem c8_self_loop_survival
    (solver : List (ℕ × V2) → List SEdge → List (ℕ × V2)) (st : SimState)
    (hsolver : solverTrivialNoop solver) (hiter : st.iterations ≤ 500) :
    (updateSimulation solver st).1.edges
        = st.edges.filter (fun e => !(isLoop e))
            ++ st.edges.filter (fun e => isLoop e)
      ∧ (updateSimulation solver st).1.edges.filter (fun e => isLoop e)
          = st.edges.filter (fun e => isLoop e)
      ∧ (st.nodes.length ≤ 1 → (updateSimulation solver st).1.nodes = st.nodes)
      ∧ (updateSimulation solver st).2 = true
      ∧ (updateSimulation solver st).1.iterations = st.iterations + 1 := by
  have hnotfin : ¬ (st.iterations > 500) := by omega
  have hmap := map_readd_self_loops (st.edges.filter (fun e => isLoop e))
    (mem_filter_isLoop st.edges)
  simp only [updateSimulation, if_neg hnotfin]
  refine ⟨?_, ?_, ?_, by trivial, by trivial⟩
  · rw [hmap]
  · rw [hmap, List.filter_append]
    have h1 : (st.edges.filter (fun e => !(isLoop e))).filter (fun e => isLoop e)
        = [] := by
      rw [List.filter_filter]
      simp
    have h2 : (st.edges.filter (fun e => isLoop e)).filter (fun e => isLoop e)
        = st.edges.filter (fun e => isLoop e) := by
      rw [List.filter_filter]
      simp
    rw [h1, h2, List.nil_append]
  · intro hlen
    exact hsolver st.nodes _ hlen

/-- Witness for C8: a one-node graph with a single self loop, solver
instantiated to the stationary solver, iteration counter 0. -/
theorem c8_self_loop_survival_witness :
    solverTrivialNoop idSolver ∧ (0 : ℕ) ≤ 500 ∧
      ((updateSimulation idSolver ⟨[(0, V2.zero)], [⟨0, 0, 7⟩], 0⟩).1.edges
          = ([⟨0, 0, 7⟩] : List SEdge).filter (fun e => !(isLoop e))
              ++ ([⟨0, 0, 7⟩] : List SEdge).filter (fun e => isLoop e)
        ∧ (updateSimulation idSolver ⟨[(0, V2.zero)], [⟨0, 0, 7⟩], 0⟩).1.edges.filter
              (fun e => isLoop e)
            = ([⟨0, 0, 7⟩] : List SEdge).filter (fun e => isLoop e)
        ∧ (([(0, V2.zero)] : List (ℕ × V2)).length ≤ 1 →
            (updateSimulation idSolver ⟨[(0, V2.zero)], [⟨0, 0, 7⟩], 0⟩).1.nodes
              = [(0, V2.zero)])
        ∧ (updateSimulation idSolver ⟨[(0, V2.zero)], [⟨0, 0, 7⟩], 0⟩).2 = true
        ∧ (updateSimulation idSolver ⟨[(0, V2.zero)], [⟨0, 0, 7⟩], 0⟩).1.iterations
            = 0 + 1) :=
  ⟨fun _ _ _ => rfl, by norm_num,
    c8_self_loop_survival idSolver ⟨[(0, V2.zero)], [⟨0, 0, 7⟩], 0⟩
      (fun _ _ _ => rfl) (by norm_num)⟩

/-- C6 (evaluation at the failing input).  `Graph::draw_edges` has no
degenerate-geometry guard: for an edge between two distinct nodes
(indices 0 and 1) whose locations coincide at (10, 20), the direction
vector is zero-length, yet the body and both arrowhead strokes are
still emitted (three segments, all degenerate) instead of being
skipped — the division `dir = vec / l` is executed with `l = 0` (in the
source's `f32` this produces NaN coordinates; in this total rational
model `x / 0 = 0`, which does not change the fact that nothing is
skipped).  Universally quantified over the cosine/sine of the arrowhead
angle, which are irrational constants in the source. -/
theorem c6_degenerate_not_skipped (c s : ℚ) :
    V2.len2 ((⟨⟨10, 20⟩, 5⟩ : NodeProps).position
        - (⟨⟨10, 20⟩, 5⟩ : NodeProps).position) = 0
      ∧ drawEdgeShapes c s ⟨⟨10, 20⟩, 5⟩ ⟨⟨10, 20⟩, 5⟩ ⟨0, 1, 2, 1, 1⟩ 1 1 0 0
          = [EShape.seg ⟨10, 20⟩ ⟨10, 20⟩, EShape.seg ⟨10, 20⟩ ⟨10, 20⟩,
             EShape.seg ⟨10, 20⟩ ⟨10, 20⟩]
      ∧ drawEdgeShapes c s ⟨⟨10, 20⟩, 5⟩ ⟨⟨10, 20⟩, 5⟩ ⟨0, 1, 2, 1, 1⟩ 1 1 0 0
          ≠ [] := by
  refine ⟨?_, ?_, ?_⟩
  · norm_num [V2.len2, V2.sub_def]
  · simp only [drawEdgeShapes, rotateVector, V2.sdiv, V2.smul, V2.sub_def,
      V2.add_def]
    norm_num
  · simp [drawEdgeShapes]

/-- Helper: a present index has a successful lookup. -/
theorem lookup_isSome_of_mem_keys (g : VGraph) (i : ℕ)
    (h : i ∈ g.map Prod.fst) : (lookupNode g i).isSome = true := by
  induction g with
  | nil => simp at h
  | cons p rest ih =>
    by_cases hp : p.1 = i
    · simp [lookupNode, hp]
    · rw [List.map_cons] at h
      have : i ∈ rest.map Prod.fst := by
        rcases List.mem_cons.mp h with he | hm
        · exact absurd he.symm hp
        · exact hm
      simp [lookupNode, hp, ih this]

/-- Helper: marking a present index dragged in a graph with no dragged
node and distinct indices makes it the unique dragged reference. -/
theorem draggedIdx_update_true (g : VGraph) (i : ℕ) (hn : keysNodup g)
    (hnone : draggedIdx g = none) (hkey : i ∈ g.map Prod.fst) :
    draggedIdx (updateNode g i (fun nd => { nd with dragged := true })) = some i := by
  induction g with
  | nil => simp at hkey
  | cons p rest ih =>
    have hpd : p.2.dragged = false := by
      by_cases hd : p.2.dragged
      · simp [draggedIdx, hd] at hnone
      · exact Bool.eq_false_iff.mpr hd
    have hrest : draggedIdx rest = none := by simpa [draggedIdx, hpd] using hnone
    rw [keysNodup, List.map_cons, List.nodup_cons] at hn
    by_cases hp : p.1 = i
    · simp [updateNode, hp, draggedIdx]
    · rw [List.map_cons] at hkey
      have hkey2 : i ∈ rest.map Prod.fst := by
        rcases List.mem_cons.mp hkey with he | hm
        · exact absurd he.symm hp
        · exact hm
      simp [updateNode, hp, draggedIdx, hpd, ih hn.2 hrest hkey2]

/-- Helper: when the frame-start Computed-State carries a dragged node,
`handle_pan` leaves the metadata untouched. -/
theorem handlePan_of_dragged (nav : SettingsNavigation) (input : FrameInput)
    (comp : CompState) (meta : Metadata) (j : ℕ) (h : comp.dragged = some j) :
    handlePan nav input comp meta = (meta, []) := by
  rw [handlePan]
  split_ifs with h1 h2
  · rfl
  · rw [h] at h2
    exact absurd h2.2.1 (by simp)
  · rfl

/-- C9 (amended).  Drag-over-pan priority, two-frame form: when
pointer-down hits a node and dragging is enabled (and no node was
already dragged), the frame enters the node-dragging state: the hit
node's `dragged` flag is set and it becomes the Computed-State dragged
reference of the next frame; on every subsequent frame of that drag
(any input while the flag is still set) the viewport pan is not changed.
On the pointer-down frame itself, however, the pan may still change —
`handle_pan` consults the Computed-State built before the drag start
was recorded — which is the part of the original claim that fails (see
the counterexample theorem). -/
theorem c9_drag_over_pan (s : SettingsInteraction) (nav : SettingsNavigation)
    (style : SettingsStyle) (input1 : FrameInput) (meta : Metadata) (g : VGraph)
    (i : ℕ) (n : VNode)
    (hdrag : s.draggingEnabled = true)
    (hnodup : keysNodup g)
    (hstart : input1.dragStarted = true)
    (hnone : draggedIdx g = none)
    (hhit : nodeByScreenPos (handlePan nav input1 (computeState g) meta).1 style g
        input1.hoverPos = some (i, n)) :
    ∃ m1 ev1, navDragStep s nav style input1 meta g
        = some (m1, updateNode g i (fun nd => { nd with dragged := true }), ev1)
      ∧ draggedIdx (updateNode g i (fun nd => { nd with dragged := true })) = some i
      ∧ ∀ (input2 : FrameInput) (m2 : Metadata) (g2 : VGraph) (ev2 : List GEvent),
          navDragStep s nav style input2 m1
              (updateNode g i (fun nd => { nd with dragged := true }))
            = some (m2, g2, ev2) →
          m2.pan = m1.pan := by
  have hmem : (i, n) ∈ g := List.mem_of_find?_eq_some hhit
  have hkey : i ∈ g.map Prod.fst := List.mem_map_of_mem Prod.fst hmem
  obtain ⟨nn, hnn⟩ := Option.isSome_iff_exists.mp (lookup_isSome_of_mem_keys g i hkey)
  have hcomp : (computeState g).dragged = none := by simp [computeState, hnone]
  have hsds : setDragStart g i
      = some (updateNode g i (fun nd => { nd with dragged := true }),
          [GEvent.nodeDragStart i]) := by
    simp [setDragStart, hnn]
  have hstep : handleNodeDrag s style input1 (computeState g)
        (handlePan nav input1 (computeState g) meta).1 g
      = some (updateNode g i (fun nd => { nd with dragged := true }),
          [GEvent.nodeDragStart i]) := by
    simp [handleNodeDrag, hdrag, hstart, hhit, hsds, hcomp]
  have hdragged1 : draggedIdx
      (updateNode g i (fun nd => { nd with dragged := true })) = some i :=
    draggedIdx_update_true g i hnodup hnone hkey
  refine ⟨(handlePan nav input1 (computeState g) meta).1,
    (handlePan nav input1 (computeState g) meta).2 ++ [GEvent.nodeDragStart i],
    ?_, hdragged1, ?_⟩
  · simp [navDragStep, hstep]
  · intro input2 m2 g2 ev2 heq
    have hcomp2 : (computeState
        (updateNode g i (fun nd => { nd with dragged := true }))).dragged
          = some i := by
      simp [computeState, hdragged1]
    rw [navDragStep] at heq
    rw [handlePan_of_dragged nav input2 _ _ i hcomp2] at heq
    rcases hh : handleNodeDrag s style input2
        (computeState (updateNode g i (fun nd => { nd with dragged := true })))
        ((handlePan nav input1 (computeState g) meta).1)
        (updateNode g i (fun nd => { nd with dragged := true })) with _ | pr2
    · rw [hh] at heq
      exact absurd heq (by simp)
    · rw [hh] at heq
      obtain ⟨ga, evs⟩ := pr2
      have := (Option.some.injEq _ _).mp heq
      rw [← (Prod.mk.injEq _ _ _ _).mp this |>.1]

/-- Helper: concrete evaluation of `handle_pan` on the pointer-down
frame of the drag scenario (no dragged node in the frame-start
Computed-State, drag delta (1, 0)). -/
theorem handlePan_concrete_eval :
    handlePan ⟨true⟩ ⟨true, true, false, ⟨1, 0⟩, ⟨0, 0⟩⟩ ⟨none, []⟩ ⟨1, V2.zero⟩
      = (⟨1, ⟨1, 0⟩⟩, [GEvent.panEv ⟨1, 0⟩]) := by
  rw [handlePan, if_neg (by simp), if_pos ⟨rfl, rfl, Or.inl (by norm_num)⟩]
  norm_num [V2.add_def, V2.zero]

/-- Helper: concrete evaluation of the hit test after the pan of the
pointer-down frame: the pointer at screen (0, 0) with pan (1, 0) and
zoom 1 lies within radius 5 of the node at canvas (0, 0). -/
theorem nodeByScreenPos_concrete_eval :
    nodeByScreenPos ⟨1, ⟨1, 0⟩⟩ ⟨0⟩ gOne ⟨0, 0⟩ = some (0, sampleNode 0 0) := by
  have hdet : nodeDetect ⟨1, ⟨1, 0⟩⟩ (sampleNode 0 0)
      ((V2.mk 0 0 - ⟨1, 0⟩).sdiv 1) ⟨0⟩ = true := by
    rw [nodeDetect, decide_eq_true_eq]
    norm_num [screenRadius, sampleNode, V2.len2, V2.sub_def, V2.sdiv]
  simp only [nodeByScreenPos, gOne]
  exact List.find?_cons_of_pos _ hdet

/-- C9 counterexample.  On the very frame where pointer-down hits the
node (dragging and navigation enabled, drag delta (1, 0)), the widget
both enters the node-dragging state *and* pans: `handle_pan` runs
before `handle_node_drag` and consults the Computed-State built at
frame start, which records no dragged node yet, so the pan moves from
(0, 0) to (1, 0) on that frame — contradicting "the viewport pan is
not changed that frame". -/
theorem c9_drag_over_pan_cex :
    navDragStep ⟨false, true, false, false⟩ ⟨true⟩ ⟨0⟩
        ⟨true, true, false, ⟨1, 0⟩, ⟨0, 0⟩⟩ ⟨1, V2.zero⟩ gOne
      = some (⟨1, ⟨1, 0⟩⟩, [(0, ⟨⟨0, 0⟩, 5, 0, false, true⟩)],
          [GEvent.panEv ⟨1, 0⟩, GEvent.nodeDragStart 0])
      ∧ (⟨1, 0⟩ : V2) ≠ (⟨1, V2.zero⟩ : Metadata).pan := by
  have hcomp : computeState gOne = ⟨none, []⟩ := rfl
  have hsds : setDragStart gOne 0
      = some ([(0, ⟨⟨0, 0⟩, 5, 0, false, true⟩)], [GEvent.nodeDragStart 0]) := by
    simp [setDragStart, gOne, sampleNode, lookupNode, updateNode]
  have hnd : handleNodeDrag ⟨false, true, false, false⟩ ⟨0⟩
        ⟨true, true, false, ⟨1, 0⟩, ⟨0, 0⟩⟩ ⟨none, []⟩ ⟨1, ⟨1, 0⟩⟩ gOne
      = some ([(0, ⟨⟨0, 0⟩, 5, 0, false, true⟩)], [GEvent.nodeDragStart 0]) := by
    simp [handleNodeDrag, nodeByScreenPos_concrete_eval, hsds]
  constructor
  · simp only [navDragStep, hcomp, handlePan_concrete_eval, hnd]
    simp
  · simp [V2.zero]

/-- Witness for C9 (amended): the concrete drag-start scenario of the
counterexample, two-frame conclusion instantiated. -/
theorem c9_drag_over_pan_witness :
    ((⟨false, true, false, false⟩ : SettingsInteraction).draggingEnabled = true
        ∧ draggedIdx gOne = none
        ∧ nodeByScreenPos
            (handlePan ⟨true⟩ ⟨true, true, false, ⟨1, 0⟩, ⟨0, 0⟩⟩
              (computeState gOne) ⟨1, V2.zero⟩).1 ⟨0⟩ gOne ⟨0, 0⟩
          = some (0, sampleNode 0 0))
      ∧ ∃ m1 ev1, navDragStep ⟨false, true, false, false⟩ ⟨true⟩ ⟨0⟩
            ⟨true, true, false, ⟨1, 0⟩, ⟨0, 0⟩⟩ ⟨1, V2.zero⟩ gOne
          = some (m1, updateNode gOne 0 (fun nd => { nd with dragged := true }), ev1)
        ∧ draggedIdx (updateNode gOne 0 (fun nd => { nd with dragged := true }))
            = some 0
        ∧ ∀ (input2 : FrameInput) (m2 : Metadata) (g2 : VGraph) (ev2 : List GEvent),
            navDragStep ⟨false, true, false, false⟩ ⟨true⟩ ⟨0⟩ input2 m1
                (updateNode gOne 0 (fun nd => { nd with dragged := true }))
              = some (m2, g2, ev2) →
            m2.pan = m1.pan :=
  ⟨⟨rfl, rfl, by
      rw [show computeState gOne = ⟨none, []⟩ from rfl, handlePan_concrete_eval]
      exact nodeByScreenPos_concrete_eval⟩,
    c9_drag_over_pan ⟨false, true, false, false⟩ ⟨true⟩ ⟨0⟩
      ⟨true, true, false, ⟨1, 0⟩, ⟨0, 0⟩⟩ ⟨1, V2.zero⟩ gOne 0 (sampleNode 0 0)
      rfl (by rw [keysNodup]; decide) rfl rfl
      (by
        rw [show computeState gOne = ⟨none, []⟩ from rfl, handlePan_concrete_eval]
        exact nodeByScreenPos_concrete_eval)⟩

end EguiGraphs
